import Mathlib

/-!
Verification of the aws-butler traversal and reconciliation core.

Shallow embedding of the relevant functions of src/parameters.py and
src/cloudwatch.py.  Python strings are modelled as List Char (wrapped in
String where convenient), dictionaries as association lists in insertion
order, and the paged remote service as an explicit list of pages or as a
function from a query filter to the item list it returns.
-/

/-! ## Name validation: parameters.py, is_valid_ssm_name -/

/-- Python regex class \w restricted to ASCII (the repository only ever
feeds ASCII region names to this position). -/
def isWordChar (c : Char) : Bool := c.isAlphanum || c == '_'

/-- The character class [a-zA-Z0-9_.-] of is_valid_ssm_name. -/
def allowedChar (c : Char) : Bool := c.isAlphanum || c == '_' || c == '.' || c == '-'

/-- Consume a literal, returning the remainder, as the fixed text pieces of
the arn regex do. -/
def dropLit (lit s : List Char) : Option (List Char) :=
  if lit.isPrefixOf s then some (s.drop lit.length) else none

/-- Consume one-or-more characters satisfying p (regex +, greedy).  Because
the character after each + group in the arn regex (a dash or colon) never
satisfies the group class, greedy matching without backtracking is exact
here. -/
def munch1 (p : Char → Bool) (s : List Char) : Option (List Char) :=
  if s.takeWhile p = [] then none else some (s.dropWhile p)

def expectChar (c : Char) : List Char → Option (List Char)
  | [] => none
  | x :: rest => if x == c then some rest else none

/-- The optional named group arn of is_valid_ssm_name:
arn:aws:ssm:\w+-\w+-\d+:\d+:parameter.  Returns the remainder of the
string after the group when the group matches. -/
def parseArn (s : List Char) : Option (List Char) := do
  let s1 ← dropLit ("arn:aws:ssm:".data) s
  let s2 ← munch1 isWordChar s1
  let s3 ← expectChar '-' s2
  let s4 ← munch1 isWordChar s3
  let s5 ← expectChar '-' s4
  let s6 ← munch1 Char.isDigit s5
  let s7 ← expectChar ':' s6
  let s8 ← munch1 Char.isDigit s7
  let s9 ← expectChar ':' s8
  dropLit ("parameter".data) s9

/-- The path group .+ : one-or-more characters other than a newline
(regex dot without DOTALL). -/
def matchedPath (s : List Char) : Option (List Char) :=
  if s.takeWhile (fun c => !(c == '\n')) = [] then none
  else some (s.takeWhile (fun c => !(c == '\n')))

/-- The path group of re.match on (arn)?(path): when the arn group would
leave nothing for the mandatory path group, the regex engine backtracks and
the arn group matches nothing.  A none result models the Python NameError
raised when the whole regex fails and the later code reads the unbound
variable path. -/
def pathOf (name : List Char) : Option (List Char) :=
  match parseArn name with
  | some rest =>
    match matchedPath rest with
    | some path => some path
    | none => matchedPath name
  | none => matchedPath name

/-- Case-insensitive literal test at the start of s, for the (?i) regex. -/
def startsWithCI (s lit : List Char) : Bool :=
  (s.take lit.length).map Char.toLower == lit

/-- The reserved-name regex (?i)/?(aws)|(ssm) applied with re.match.  The
alternation binds loosest, so the branches are an optional slash followed
by aws, or ssm with no optional slash. -/
def reservedMatch (path : List Char) : Bool :=
  startsWithCI path ("aws".data)
    || (path.head? == some '/' && startsWithCI (path.drop 1) ("aws".data))
    || startsWithCI path ("ssm".data)

/-- The regex ^(/|[a-zA-Z0-9_.-])+$ applied to path.  path never contains a
newline (see matchedPath), so $ is a plain end anchor. -/
def legalChars (path : List Char) : Bool :=
  !path.isEmpty && path.all (fun c => c == '/' || allowedChar c)

/-- is_valid_ssm_name of parameters.py on a list of characters.  The length
and hierarchy checks read the whole name; the remaining checks read only
the path group. -/
def ssmNameCheck (name : List Char) : Option (Bool × String) :=
  if name.length > 1011 then some (false, "name cannot be longer than 1011 chars")
  else if name.count '/' > 15 then
    some (false, "name cannot have more than 15 levels of hierachy")
  else
    match pathOf name with
    | none => none
    | some path =>
      if reservedMatch path then
        some (false, "name cannot start with \x27aws\x27 or \x27ssm\x27")
      else if !legalChars path then
        some (false, "name uses an illegal character or pattern")
      else if !(path.head? == some '/') && path.contains '/' then
        some (false, "name must be fully qualified path")
      else some (true, "name is valid")

/-- is_valid_ssm_name on a String. -/
def is_valid_ssm_name (name : String) : Option (Bool × String) :=
  ssmNameCheck name.data

/-- A name of the ARN form the arn group recognises, assembled from its
region words, region number, account number and parameter path. -/
def arnName (w1 w2 dreg acct path : List Char) : List Char :=
  ("arn:aws:ssm:".data)
    ++ (w1 ++ '-' :: (w2 ++ '-' :: (dreg ++ ':' :: (acct
    ++ ':' :: (("parameter".data) ++ path)))))

/-! ## Three-way diff: parameters.py, diff_params -/

/-- The namedtuple change, fields old and new. -/
structure change where
  old : String
  new : String
deriving DecidableEq

/-- The namedtuple diff_summary, fields unchanged, new, changed. -/
structure diff_summary where
  unchanged : List (String × String)
  new : List (String × String)
  changed : List (String × change)
deriving DecidableEq

/-- diff_params of parameters.py: iterate the local items in order and
classify each against the remote map (terminal echo calls elided). -/
def diff_params (localParams remoteParams : List (String × String)) : diff_summary :=
  match localParams with
  | [] => { unchanged := [], new := [], changed := [] }
  | (k, v) :: rest =>
    let d := diff_params rest remoteParams
    match remoteParams.lookup k with
    | some rv =>
      if v = rv then { d with unchanged := (k, v) :: d.unchanged }
      else { d with changed := (k, change.mk rv v) :: d.changed }
    | none => { d with new := (k, v) :: d.new }

/-! ## Parallel value fetch: parameters.py, get_parameters

The thread pool is abstracted away: the input list is the per-future
(name, outcome) pairs in the order as_completed delivers them. -/

deriving instance DecidableEq for Except

/-- First error in completion order, if any. -/
def firstErr {ε α : Type} : List (String × Except ε α) → Option ε
  | [] => none
  | (_, Except.error e) :: _ => some e
  | (_, Except.ok _) :: rest => firstErr rest

/-- The successful (name, value) pairs in completion order. -/
def okResults {ε α : Type} : List (String × Except ε α) → List (String × α)
  | [] => []
  | (n, Except.ok v) :: rest => (n, v) :: okResults rest
  | (_, Except.error _) :: rest => okResults rest

/-- The as_completed loop of get_parameters: build the results dict until
the first future that carries an exception, which is re-raised. -/
def getParametersGo {ε α : Type} (acc : List (String × α)) :
    List (String × Except ε α) → Except ε (List (String × α))
  | [] => Except.ok acc
  | (n, Except.ok v) :: rest => getParametersGo (acc ++ [(n, v)]) rest
  | (_, Except.error e) :: _ => Except.error e

/-- get_parameters of parameters.py. -/
def get_parameters {ε α : Type} (completed : List (String × Except ε α)) :
    Except ε (List (String × α)) :=
  getParametersGo [] completed

/-! ## Parameter walk: parameters.py, walk_parameters -/

/-- A parameter record; only the fields the walk logic reads. -/
structure Param where
  name : String
  value : String
deriving DecidableEq

/-- A describe_parameters filter: the empty filter list, the partial Path
filter, or the exact Name filter. -/
inductive ParamFilter where
  | noFilter
  | byPath (path : String)
  | byName (name : String)
deriving DecidableEq

/-- The MaxItems pagination cap of one paginate call (the boto3 paginator
caps the total item count of the query at MaxItems; None means no cap). -/
def takeOpt {α : Type} (limit : Option Nat) (l : List α) : List α :=
  match limit with
  | none => l
  | some k => l.take k

/-- path = path if path else (None,) of walk_parameters. -/
def effPaths (paths : List (Option String)) : List (Option String) :=
  if paths.isEmpty then [none] else paths

/-- The filters run for one path entry: a falsy entry runs one unfiltered
query; otherwise the partial Path filter then the exact Name filter. -/
def queriesFor (p : Option String) : List ParamFilter :=
  match p with
  | none => [ParamFilter.noFilter]
  | some s =>
    if s.isEmpty then [ParamFilter.noFilter]
    else [ParamFilter.byPath s, ParamFilter.byName s]

/-- The inner walk() generator of walk_parameters: all query results over
all paths and filters, concatenated in declaration order.  service maps a
filter to the items the remote query returns (pagination flattened; the
get_value branch resolves values but yields the same records in the same
order, so it is not modelled separately). -/
def walkRaw (service : ParamFilter → List Param) (paths : List (Option String))
    (limit : Option Nat) : List Param :=
  (effPaths paths).flatMap (fun p => (queriesFor p).flatMap (fun f => takeOpt limit (service f)))

/-- The dedup loop of walk_parameters: yield a parameter only when its name
is not in the yielded_param_names set. -/
def dedupGo : List Param → List String → List Param
  | [], _ => []
  | p :: ps, seen =>
    if p.name ∈ seen then dedupGo ps seen
    else p :: dedupGo ps (p.name :: seen)

/-- walk_parameters of parameters.py. -/
def walk_parameters (service : ParamFilter → List Param) (paths : List (Option String))
    (limit : Option Nat) : List Param :=
  dedupGo (walkRaw service paths limit) []

/-- A concrete store for evaluation: the partial query for /a and the exact
query for /a/b both return the parameter /a/b. -/
def overlapService (f : ParamFilter) : List Param :=
  match f with
  | ParamFilter.byPath p => if p == "/a" then [Param.mk "/a/b" "1"] else []
  | ParamFilter.byName n => if n == "/a/b" then [Param.mk "/a/b" "1"] else []
  | ParamFilter.noFilter => []

/-! ## Log event walk: cloudwatch.py, walk_log_events

The remote service is modelled as the list of responses the successive
get_log_events calls return, in call order; the token of each call is
determined by the previous response exactly as in the source.  A none
result means the source generator would issue a further call beyond the
supplied responses. -/

/-- One get_log_events response: the events and the nextForwardToken. -/
structure LogPage (α : Type) where
  events : List α
  nextForwardToken : Option String
deriving DecidableEq

/-- The Python test (limit and n_events >= limit): a missing or zero limit
is falsy and never stops the walk. -/
def limitHit (limit : Option Nat) (n : Nat) : Bool :=
  match limit with
  | none => false
  | some k => decide (0 < k) && decide (k ≤ n)

/-- The while-loop of walk_log_events: emit the whole page, then stop when
the token did not advance or the cumulative count reached the limit. -/
def walkGo {α : Type} (token : Option String) (nEvents : Nat) (limit : Option Nat) :
    List (LogPage α) → Option (List α)
  | [] => none
  | p :: rest =>
    let n := nEvents + p.events.length
    if token == p.nextForwardToken || limitHit limit n then some p.events
    else (walkGo p.nextForwardToken n limit rest).map (fun es => p.events ++ es)

/-- walk_log_events of cloudwatch.py. -/
def walk_log_events {α : Type} (pages : List (LogPage α)) (limit : Option Nat) :
    Option (List α) :=
  walkGo none 0 limit pages

/-- No stop-by-token along these pages, starting from the given sent
token. -/
def progresses {α : Type} (token : Option String) : List (LogPage α) → Bool
  | [] => true
  | p :: ps => !(token == p.nextForwardToken) && progresses p.nextForwardToken ps

/-- The token the loop sends after consuming these pages. -/
def sentAfter {α : Type} (token : Option String) : List (LogPage α) → Option String
  | [] => token
  | p :: ps => sentAfter p.nextForwardToken ps

/-- The cumulative event count stays strictly below k after every one of
these pages (no stop-by-limit). -/
def cumBelow {α : Type} (k n : Nat) : List (LogPage α) → Bool
  | [] => true
  | p :: ps => decide (n + p.events.length < k) && cumBelow k (n + p.events.length) ps

/-- All events of a page list, in order. -/
def emitted {α : Type} (pages : List (LogPage α)) : List α :=
  (pages.map LogPage.events).flatten

/-! ## Push command: parameters.py, push

The command is modelled from the diff step on: inputs are the local and
remote maps it has assembled, the dry-run flag and the operator answer;
the output is the single put_parameters call it makes, if any. -/

/-- The SSM parameter types accepted by put_parameter. -/
inductive ParamType where
  | string
  | stringList
  | secureString
deriving DecidableEq

/-- One put_parameters invocation: the name-to-value map written and the
type and overwrite flag every put_parameter call of that invocation
uses. -/
structure WriteCall where
  params : List (String × String)
  ptype : ParamType
  overwrite : Bool
deriving DecidableEq

/-- put_parameters of parameters.py always writes SecureString with
overwrite=True. -/
def put_parameters (params : List (String × String)) : WriteCall :=
  { params := params, ptype := ParamType.secureString, overwrite := true }

/-- The decision logic of the push command after the diff: dry-run stops;
an empty diff stops; otherwise only the exact answer yes triggers the
write, whose payload merges the new entries with the new values of the
changed entries. -/
def push (localParams remoteParams : List (String × String)) (dryRun : Bool)
    (answer : String) : Option WriteCall :=
  let d := diff_params localParams remoteParams
  if dryRun then none
  else if !d.new.isEmpty || !d.changed.isEmpty then
    if answer == "yes" then
      some (put_parameters (d.new ++ d.changed.map (fun nc => (nc.1, nc.2.new))))
    else none
  else none

/-! ## Helper lemmas -/

theorem dropLit_append (lit r : List Char) : dropLit lit (lit ++ r) = some r := by
  have h : lit.isPrefixOf (lit ++ r) = true := by
    rw [List.isPrefixOf_iff_prefix]
    exact List.prefix_append lit r
  simp [dropLit, h]

theorem takeWhile_append_stop (p : Char → Bool) (w r : List Char) (c : Char)
    (hall : w.all p = true) (hc : p c = false) :
    (w ++ c :: r).takeWhile p = w := by
  induction w with
  | nil => simp [List.takeWhile, hc]
  | cons x xs ih =>
    simp only [List.all_cons, Bool.and_eq_true] at hall
    simp [List.takeWhile, hall.1, ih hall.2]

theorem dropWhile_append_stop (p : Char → Bool) (w r : List Char) (c : Char)
    (hall : w.all p = true) (hc : p c = false) :
    (w ++ c :: r).dropWhile p = c :: r := by
  induction w with
  | nil => simp [List.dropWhile, hc]
  | cons x xs ih =>
    simp only [List.all_cons, Bool.and_eq_true] at hall
    simp [List.dropWhile, hall.1, ih hall.2]

theorem munch1_append_stop (p : Char → Bool) (w r : List Char) (c : Char)
    (hw : w ≠ []) (hall : w.all p = true) (hc : p c = false) :
    munch1 p (w ++ c :: r) = some (c :: r) := by
  simp [munch1, takeWhile_append_stop p w r c hall hc,
    dropWhile_append_stop p w r c hall hc, hw]

theorem expectChar_cons (c : Char) (r : List Char) : expectChar c (c :: r) = some r := by
  simp [expectChar]

theorem takeWhile_all (p : Char → Bool) (l : List Char) (h : l.all p = true) :
    l.takeWhile p = l := by
  induction l with
  | nil => rfl
  | cons x xs ih =>
    simp only [List.all_cons, Bool.and_eq_true] at h
    simp [List.takeWhile, h.1, ih h.2]

theorem parseArn_arnName (w1 w2 dreg acct path : List Char)
    (hw1 : w1 ≠ []) (hw1a : w1.all isWordChar = true)
    (hw2 : w2 ≠ []) (hw2a : w2.all isWordChar = true)
    (hd : dreg ≠ []) (hda : dreg.all Char.isDigit = true)
    (ha : acct ≠ []) (haa : acct.all Char.isDigit = true) :
    parseArn (arnName w1 w2 dreg acct path) = some path := by
  have hdash : isWordChar '-' = false := by decide
  have hcolonW : isWordChar ':' = false := by decide
  have hcolonD : Char.isDigit ':' = false := by decide
  rw [arnName, parseArn]
  rw [dropLit_append]
  simp only [Option.bind_eq_bind, Option.some_bind]
  rw [munch1_append_stop isWordChar w1 _ '-' hw1 hw1a hdash]
  simp only [Option.some_bind]
  rw [expectChar_cons]
  simp only [Option.some_bind]
  rw [munch1_append_stop isWordChar w2 _ '-' hw2 hw2a hdash]
  simp only [Option.some_bind]
  rw [expectChar_cons]
  simp only [Option.some_bind]
  rw [munch1_append_stop Char.isDigit dreg _ ':' hd hda hcolonD]
  simp only [Option.some_bind]
  rw [expectChar_cons]
  simp only [Option.some_bind]
  rw [munch1_append_stop Char.isDigit acct _ ':' ha haa hcolonD]
  simp only [Option.some_bind]
  rw [expectChar_cons]
  simp only [Option.some_bind]
  exact dropLit_append _ _

theorem pathOf_arnName (w1 w2 dreg acct path : List Char)
    (hw1 : w1 ≠ []) (hw1a : w1.all isWordChar = true)
    (hw2 : w2 ≠ []) (hw2a : w2.all isWordChar = true)
    (hd : dreg ≠ []) (hda : dreg.all Char.isDigit = true)
    (ha : acct ≠ []) (haa : acct.all Char.isDigit = true)
    (hp : path ≠ []) (hpn : path.all (fun c => !(c == '\n')) = true) :
    pathOf (arnName w1 w2 dreg acct path) = some path := by
  have h1 : parseArn (arnName w1 w2 dreg acct path) = some path :=
    parseArn_arnName w1 w2 dreg acct path hw1 hw1a hw2 hw2a hd hda ha haa
  have h2 : matchedPath path = some path := by
    rw [matchedPath, takeWhile_all _ _ hpn]
    simp [hp]
  simp only [pathOf, h1, h2]

theorem walkGo_stop_token {α : Type} (pre : List (LogPage α)) (p : LogPage α)
    (rest : List (LogPage α)) (tok : Option String) (n : Nat)
    (hprog : progresses tok pre = true)
    (hstop : sentAfter tok pre = p.nextForwardToken) :
    walkGo tok n none (pre ++ p :: rest) = some (emitted pre ++ p.events) := by
  induction pre generalizing tok n with
  | nil =>
    simp only [sentAfter] at hstop
    simp [walkGo, hstop, emitted]
  | cons q pre ih =>
    simp only [progresses, Bool.and_eq_true, Bool.not_eq_eq_eq_not, Bool.not_true] at hprog
    simp only [sentAfter] at hstop
    have ihres := ih q.nextForwardToken (n + q.events.length) hprog.2 hstop
    simp [walkGo, hprog.1, limitHit, ihres, emitted, List.append_assoc]

theorem walkGo_stop_limit {α : Type} (pre : List (LogPage α)) (p : LogPage α)
    (rest : List (LogPage α)) (tok : Option String) (n k : Nat)
    (hk : 0 < k)
    (hprog : progresses tok pre = true)
    (hbel : cumBelow k n pre = true)
    (hreach : k ≤ n + (emitted pre).length + p.events.length) :
    walkGo tok n (some k) (pre ++ p :: rest) = some (emitted pre ++ p.events) := by
  induction pre generalizing tok n with
  | nil =>
    simp only [emitted, List.map_nil, List.flatten_nil, List.length_nil, Nat.add_zero] at hreach
    have hhit : limitHit (some k) (n + p.events.length) = true := by
      simp [limitHit, hk, hreach]
    simp [walkGo, hhit, emitted]
  | cons q pre ih =>
    simp only [progresses, Bool.and_eq_true, Bool.not_eq_eq_eq_not, Bool.not_true] at hprog
    simp only [cumBelow, Bool.and_eq_true, decide_eq_true_eq] at hbel
    have hmiss : limitHit (some k) (n + q.events.length) = false := by
      simp only [limitHit, Bool.and_eq_false_iff, decide_eq_false_iff_not]
      right
      omega
    have hreach2 : k ≤ n + q.events.length + (emitted pre).length + p.events.length := by
      simp only [emitted, List.map_cons, List.flatten_cons, List.length_append] at hreach
      simp only [emitted]
      omega
    have ihres := ih q.nextForwardToken (n + q.events.length) hprog.2 hbel.2 hreach2
    simp [walkGo, hprog.1, hmiss, ihres, emitted, List.append_assoc]

theorem dedupGo_sublist (l : List Param) (seen : List String) :
    (dedupGo l seen).Sublist l := by
  induction l generalizing seen with
  | nil => simp [dedupGo]
  | cons p ps ih =>
    by_cases h : p.name ∈ seen
    · simp only [dedupGo, if_pos h]
      exact (ih seen).cons p
    · simp only [dedupGo, if_neg h]
      exact (ih (p.name :: seen)).cons₂ p

theorem mem_dedupGo_not_seen {l : List Param} {seen : List String} {p : Param}
    (h : p ∈ dedupGo l seen) : p.name ∉ seen := by
  induction l generalizing seen with
  | nil => simp [dedupGo] at h
  | cons q ps ih =>
    by_cases hq : q.name ∈ seen
    · rw [dedupGo, if_pos hq] at h
      exact ih h
    · rw [dedupGo, if_neg hq] at h
      rcases List.mem_cons.mp h with rfl | hmem
      · exact hq
      · have := ih hmem
        intro hc
        exact this (List.mem_cons_of_mem _ hc)

theorem dedupGo_names_nodup (l : List Param) (seen : List String) :
    ((dedupGo l seen).map Param.name).Nodup := by
  induction l generalizing seen with
  | nil => simp [dedupGo]
  | cons q ps ih =>
    by_cases hq : q.name ∈ seen
    · rw [dedupGo, if_pos hq]
      exact ih seen
    · rw [dedupGo, if_neg hq]
      simp only [List.map_cons, List.nodup_cons]
      refine ⟨?_, ih (q.name :: seen)⟩
      intro hmem
      rcases List.mem_map.mp hmem with ⟨r, hr, hname⟩
      exact mem_dedupGo_not_seen hr (hname ▸ List.mem_cons_self _ _)

theorem dedupGo_find (l : List Param) (seen : List String) (n : String)
    (h : n ∉ seen) :
    (dedupGo l seen).find? (fun p => p.name == n) = l.find? (fun p => p.name == n) := by
  induction l generalizing seen with
  | nil => simp [dedupGo]
  | cons q ps ih =>
    by_cases hq : q.name ∈ seen
    · rw [dedupGo, if_pos hq]
      have hne : (q.name == n) = false := by
        simp only [beq_eq_false_iff_ne, ne_eq]
        intro hc
        exact h (hc ▸ hq)
      rw [List.find?_cons, hne]
      exact ih seen h
    · rw [dedupGo, if_neg hq]
      by_cases heq : q.name = n
      · simp [List.find?_cons, heq]
      · have hne : (q.name == n) = false := by simp [heq]
        rw [List.find?_cons, List.find?_cons, hne]
        apply ih (q.name :: seen)
        intro hc
        rcases List.mem_cons.mp hc with rfl | hmem
        · exact heq rfl
        · exact h hmem

theorem name_mem_iff_find (l : List Param) (n : String) :
    n ∈ l.map Param.name ↔ (l.find? (fun p => p.name == n)).isSome = true := by
  simp [List.mem_map, List.find?_isSome, beq_iff_eq]

theorem bang_isEmpty_iff {β : Type} (xs : List β) : (!xs.isEmpty) = true ↔ xs ≠ [] := by
  cases xs <;> simp

theorem diff_params_unchanged_eq (l r : List (String × String)) :
    (diff_params l r).unchanged = l.filter (fun p => decide (r.lookup p.1 = some p.2)) := by
  induction l with
  | nil => rfl
  | cons kv rest ih =>
    obtain ⟨k, v⟩ := kv
    cases hlook : r.lookup k with
    | some rv =>
      by_cases hv : v = rv
      · subst hv
        simp [diff_params, hlook, ih, List.filter_cons]
      · simp [diff_params, hlook, hv, ih, List.filter_cons, Ne.symm hv]
    | none => simp [diff_params, hlook, ih, List.filter_cons]

theorem diff_params_new_eq (l r : List (String × String)) :
    (diff_params l r).new = l.filter (fun p => decide (r.lookup p.1 = none)) := by
  induction l with
  | nil => rfl
  | cons kv rest ih =>
    obtain ⟨k, v⟩ := kv
    cases hlook : r.lookup k with
    | some rv =>
      by_cases hv : v = rv
      · subst hv
        simp [diff_params, hlook, ih, List.filter_cons]
      · simp [diff_params, hlook, hv, ih, List.filter_cons]
    | none => simp [diff_params, hlook, ih, List.filter_cons]

theorem diff_params_changed_eq (l r : List (String × String)) :
    (diff_params l r).changed = l.filterMap (fun p =>
      match r.lookup p.1 with
      | some rv => if p.2 = rv then none else some (p.1, change.mk rv p.2)
      | none => none) := by
  induction l with
  | nil => rfl
  | cons kv rest ih =>
    obtain ⟨k, v⟩ := kv
    cases hlook : r.lookup k with
    | some rv =>
      by_cases hv : v = rv
      · subst hv
        simp [diff_params, hlook, ih, List.filterMap_cons]
      · simp [diff_params, hlook, hv, ih, List.filterMap_cons]
    | none => simp [diff_params, hlook, ih, List.filterMap_cons]

theorem diff_params_keys_perm (l r : List (String × String)) :
    ((diff_params l r).unchanged.map Prod.fst
      ++ ((diff_params l r).changed.map Prod.fst ++ (diff_params l r).new.map Prod.fst)).Perm
      (l.map Prod.fst) := by
  induction l with
  | nil => simp [diff_params]
  | cons kv rest ih =>
    obtain ⟨k, v⟩ := kv
    cases hlook : r.lookup k with
    | some rv =>
      by_cases hv : v = rv
      · subst hv
        simp only [diff_params, hlook, if_pos rfl, List.map_cons, List.cons_append]
        exact ih.cons k
      · simp only [diff_params, hlook, if_neg hv, List.map_cons, List.cons_append]
        refine List.Perm.trans ?_ (ih.cons k)
        exact @List.perm_middle _ k ((diff_params rest r).unchanged.map Prod.fst)
          ((diff_params rest r).changed.map Prod.fst ++ (diff_params rest r).new.map Prod.fst)
    | none =>
      simp only [diff_params, hlook, List.map_cons]
      refine List.Perm.trans ?_ (ih.cons k)
      have hmid := @List.perm_middle _ k
        ((diff_params rest r).unchanged.map Prod.fst ++ (diff_params rest r).changed.map Prod.fst)
        ((diff_params rest r).new.map Prod.fst)
      simpa [List.append_assoc] using hmid

theorem getParametersGo_spec {ε α : Type} (l : List (String × Except ε α))
    (acc : List (String × α)) :
    getParametersGo acc l = match firstErr l with
      | some e => Except.error e
      | none => Except.ok (acc ++ okResults l) := by
  induction l generalizing acc with
  | nil => simp [getParametersGo, firstErr, okResults]
  | cons pr rest ih =>
    obtain ⟨n, r⟩ := pr
    cases r with
    | ok v =>
      rw [getParametersGo, ih, firstErr]
      cases firstErr rest <;> simp [okResults]
    | error e => rw [getParametersGo, firstErr]

theorem firstErr_none_iff {ε α : Type} (l : List (String × Except ε α)) :
    firstErr l = none ↔ ∀ pr ∈ l, ∃ v, pr.2 = Except.ok v := by
  induction l with
  | nil => simp [firstErr]
  | cons pr rest ih =>
    obtain ⟨n, r⟩ := pr
    cases r with
    | ok v => simp [firstErr, ih]
    | error e => simp [firstErr]

/-! ## Claim theorems -/

/-- C1 counterexample: the three diff maps do not partition the union of
local and remote keys: with an empty local map and remote key a, the key a
lies in the union but in none of the three output maps. -/
theorem diff_params_union_cex :
    ¬ ("a" ∈ (diff_params [] [("a", "1")]).unchanged.map Prod.fst
        ∨ "a" ∈ (diff_params [] [("a", "1")]).changed.map Prod.fst
        ∨ "a" ∈ (diff_params [] [("a", "1")]).new.map Prod.fst)
      ∧ "a" ∈ ([("a", "1")] : List (String × String)).map Prod.fst := by decide

/-- C1 (amended): diff_params classifies every local key as unchanged when
present in remote with an identical value, as changed (recording the remote
value as old and the local value as new) when present with a different
value, and as new when absent from remote; every key not present locally is
ignored, and the three result maps are pairwise disjoint and together
partition the set of local keys (not the union of local and remote
keys). -/
theorem diff_params_partitions_local (l r : List (String × String)) :
    ((diff_params l r).unchanged = l.filter (fun p => decide (r.lookup p.1 = some p.2))
      ∧ (diff_params l r).new = l.filter (fun p => decide (r.lookup p.1 = none))
      ∧ (diff_params l r).changed = l.filterMap (fun p =>
          match r.lookup p.1 with
          | some rv => if p.2 = rv then none else some (p.1, change.mk rv p.2)
          | none => none))
    ∧ ((diff_params l r).unchanged.map Prod.fst
        ++ ((diff_params l r).changed.map Prod.fst ++ (diff_params l r).new.map Prod.fst)).Perm
        (l.map Prod.fst)
    ∧ ((l.map Prod.fst).Nodup →
        ((diff_params l r).unchanged.map Prod.fst).Disjoint
          ((diff_params l r).changed.map Prod.fst)
        ∧ ((diff_params l r).unchanged.map Prod.fst).Disjoint
          ((diff_params l r).new.map Prod.fst)
        ∧ ((diff_params l r).changed.map Prod.fst).Disjoint
          ((diff_params l r).new.map Prod.fst)) := by
  refine ⟨⟨diff_params_unchanged_eq l r, diff_params_new_eq l r, diff_params_changed_eq l r⟩,
    diff_params_keys_perm l r, ?_⟩
  intro hnodup
  have hnd : ((diff_params l r).unchanged.map Prod.fst
      ++ ((diff_params l r).changed.map Prod.fst ++ (diff_params l r).new.map Prod.fst)).Nodup :=
    (diff_params_keys_perm l r).nodup_iff.mpr hnodup
  rcases List.nodup_append.mp hnd with ⟨hU, hCN, hUdisj⟩
  rcases List.nodup_append.mp hCN with ⟨hC, hN, hCdisj⟩
  exact ⟨fun a haU haC => hUdisj haU (List.mem_append_left _ haC),
    fun a haU haN => hUdisj haU (List.mem_append_right _ haN),
    hCdisj⟩

/-- C1 witness: at a concrete local and remote map the unchanged and
changed key sets are disjoint. -/
theorem diff_params_partitions_local_witness :
    ((diff_params [("x", "1"), ("y", "2")] [("x", "1"), ("y", "9")]).unchanged.map
        Prod.fst).Disjoint
      ((diff_params [("x", "1"), ("y", "2")] [("x", "1"), ("y", "9")]).changed.map Prod.fst) :=
  ((diff_params_partitions_local [("x", "1"), ("y", "2")] [("x", "1"), ("y", "9")]).2.2
    (by decide)).1

/-- C2: when the walk reaches a page whose continuation token equals the
token that was sent to fetch it (the previous page token, or the absent
token on the first fetch), walk_log_events emits that page and stops,
whatever further pages the service could still serve. -/
theorem walk_log_events_token_repeat_stops {α : Type} (pre : List (LogPage α)) (p : LogPage α)
    (rest : List (LogPage α))
    (hprog : progresses none pre = true)
    (hstop : sentAfter none pre = p.nextForwardToken) :
    walk_log_events (pre ++ p :: rest) none = some (emitted pre ++ p.events) :=
  walkGo_stop_token pre p rest none 0 hprog hstop

/-- C2 witness: a second page repeating the first page token stops the walk
after two pages even though a third page exists. -/
theorem walk_log_events_token_repeat_witness :
    walk_log_events ([LogPage.mk [1, 2] (some "t")]
        ++ LogPage.mk [3] (some "t") :: [LogPage.mk [9] (some "u")]) none
      = some [1, 2, 3] := by
  have h := walk_log_events_token_repeat_stops [LogPage.mk [1, 2] (some "t")]
    (LogPage.mk [3] (some "t")) [LogPage.mk [9] (some "u")] (by decide) (by decide)
  exact h.trans (by decide)

/-- C3 counterexample: with cap 3 the log-event walk yields five items,
because the whole final page is emitted before the cap is checked. -/
theorem walk_cap_cex :
    walk_log_events [LogPage.mk [1, 2] (some "a"), LogPage.mk [3, 4, 5] (some "b")] (some 3)
        = some [1, 2, 3, 4, 5]
      ∧ ¬ (([1, 2, 3, 4, 5] : List Nat).length ≤ 3) := by decide

/-- C3 (amended): the walk with cap k emits whole pages and stops at the
end of the first page at which the cumulative count reaches k, so the yield
is the flattened minimal page prefix reaching k rather than at most k
items; the parameter walk applies the cap to each underlying query, so only
a single-query (no-path) walk is bounded by k. -/
theorem walk_cap_amended :
    (∀ (α : Type) (pre : List (LogPage α)) (p : LogPage α) (rest : List (LogPage α)) (k : Nat),
        0 < k → progresses none pre = true → cumBelow k 0 pre = true →
        k ≤ (emitted pre).length + p.events.length →
        walk_log_events (pre ++ p :: rest) (some k) = some (emitted pre ++ p.events))
    ∧ (∀ (service : ParamFilter → List Param) (k : Nat),
        (walk_parameters service [] (some k)).length ≤ k) := by
  constructor
  · intro α pre p rest k hk hprog hbel hreach
    exact walkGo_stop_limit pre p rest none 0 k hk hprog hbel (by omega)
  · intro service k
    have hsub := dedupGo_sublist (walkRaw service [] (some k)) []
    have h1 : walkRaw service [] (some k) = (service ParamFilter.noFilter).take k := by
      simp [walkRaw, effPaths, queriesFor, takeOpt]
    calc (walk_parameters service [] (some k)).length
        ≤ (walkRaw service [] (some k)).length := hsub.length_le
      _ = ((service ParamFilter.noFilter).take k).length := by rw [h1]
      _ ≤ k := List.length_take_le k (service ParamFilter.noFilter)

/-- C3 witness: at cap 3 the walk stops after the page that crosses the
cap, yielding that whole page. -/
theorem walk_cap_witness :
    walk_log_events ([LogPage.mk [1, 2] (some "a")]
        ++ LogPage.mk [3, 4, 5] (some "b") :: []) (some 3)
      = some [1, 2, 3, 4, 5] := by
  have h := walk_cap_amended.1 Nat [LogPage.mk [1, 2] (some "a")]
    (LogPage.mk [3, 4, 5] (some "b")) [] 3 (by decide) (by decide) (by decide) (by decide)
  exact h.trans (by decide)

/-- C4: walk_parameters never yields two parameters with the same name,
its output is a subsequence of the concatenated query results, each name is
represented by its first occurrence there, and a name is yielded exactly
when some query returned it. -/
theorem walk_parameters_dedup (service : ParamFilter → List Param)
    (paths : List (Option String)) (limit : Option Nat) :
    ((walk_parameters service paths limit).map Param.name).Nodup
    ∧ (walk_parameters service paths limit).Sublist (walkRaw service paths limit)
    ∧ (∀ n, (walk_parameters service paths limit).find? (fun p => p.name == n)
        = (walkRaw service paths limit).find? (fun p => p.name == n))
    ∧ (∀ n, n ∈ (walk_parameters service paths limit).map Param.name
        ↔ n ∈ (walkRaw service paths limit).map Param.name) := by
  simp only [walk_parameters]
  refine ⟨dedupGo_names_nodup _ _, dedupGo_sublist _ _,
    fun n => dedupGo_find _ _ n (by simp), fun n => ?_⟩
  rw [name_mem_iff_find, name_mem_iff_find, dedupGo_find _ _ n (by simp)]

/-- C4 witness: with the overlapping partial query for /a and exact query
for /a/b, the parameter /a/b is yielded exactly once, as the first
occurrence of its name among the raw query results. -/
theorem walk_parameters_dedup_witness :
    (walk_parameters overlapService [some "/a", some "/a/b"] none).find?
        (fun p => p.name == "/a/b")
      = some (Param.mk "/a/b" "1") := by
  rw [(walk_parameters_dedup overlapService [some "/a", some "/a/b"] none).2.2.1 "/a/b"]
  decide

/-- C5: get_parameters raises the first completed error whenever any fetch
task fails, returning no partial mapping, and returns the full
name-to-value mapping exactly when every task succeeds. -/
theorem get_parameters_fail_fast {ε α : Type} (completed : List (String × Except ε α)) :
    (get_parameters completed = match firstErr completed with
        | some e => Except.error e
        | none => Except.ok (okResults completed))
    ∧ (firstErr completed = none ↔ ∀ pr ∈ completed, ∃ v, pr.2 = Except.ok v) := by
  constructor
  · rw [get_parameters, getParametersGo_spec]
    cases firstErr completed <;> simp
  · exact firstErr_none_iff completed

/-- C5 witness: a failing task for b among successes for a and c makes the
fetch raise that error with no partial mapping. -/
theorem get_parameters_fail_fast_witness :
    get_parameters ([("a", Except.ok 1), ("b", Except.error "boom"), ("c", Except.ok 3)]
        : List (String × Except String Nat))
      = Except.error "boom" := by
  rw [(get_parameters_fail_fast ([("a", Except.ok 1), ("b", Except.error "boom"),
    ("c", Except.ok 3)] : List (String × Except String Nat))).1]
  decide

/-- C6: the push command issues the write call exactly when dry-run is off,
the confirmation answer is the exact token yes, and the diff has a
non-empty new or changed set; the write then covers the new entries plus
the new values of the changed entries, always as SecureString with
overwrite permitted, and in every other case no write happens. -/
theorem push_write_guard (l r : List (String × String)) (dry : Bool) (ans : String)
    (w : WriteCall) :
    push l r dry ans = some w ↔
      (dry = false ∧ ans = "yes"
        ∧ ((diff_params l r).new ≠ [] ∨ (diff_params l r).changed ≠ [])
        ∧ w = put_parameters ((diff_params l r).new
            ++ (diff_params l r).changed.map (fun nc => (nc.1, nc.2.new)))) := by
  simp only [push]
  split_ifs with hdry hne hans
  · simp [hdry]
  · have hdry2 : dry = false := by simpa using hdry
    rw [Bool.or_eq_true, bang_isEmpty_iff, bang_isEmpty_iff] at hne
    rw [Option.some_inj]
    constructor
    · intro hw
      exact ⟨hdry2, eq_of_beq hans, hne, hw.symm⟩
    · rintro ⟨-, -, -, hw⟩
      exact hw.symm
  · have hans2 : ans ≠ "yes" := fun hc => hans (by simp [hc])
    simp [hans2]
  · rw [Bool.or_eq_true, bang_isEmpty_iff, bang_isEmpty_iff] at hne
    push_neg at hne
    simp [hne.1, hne.2]

/-- C6 witness: with one new entry, dry-run off and the exact answer yes,
push issues the SecureString overwrite write of that entry. -/
theorem push_write_guard_witness :
    push [("a", "1")] [] false "yes" = some (put_parameters [("a", "1")]) := by
  apply (push_write_guard [("a", "1")] [] false "yes" (put_parameters [("a", "1")])).mpr
  refine ⟨rfl, rfl, ?_, ?_⟩ <;> decide

/-- C7 counterexample: a second page carrying no continuation token does
not stop the walk: the walk continues and emits the third page as well,
because the stop test compares the absent token with the previously sent
token instead of testing absence. -/
theorem walk_log_events_no_token_cex :
    walk_log_events [LogPage.mk [1] (some "t"), LogPage.mk [2] (none : Option String),
        LogPage.mk [3] none] none
        = some [1, 2, 3]
      ∧ walk_log_events [LogPage.mk [1] (some "t"), LogPage.mk [2] (none : Option String),
        LogPage.mk [3] none] none
        ≠ some [1, 2] := by decide

/-- C7 (amended): a page carrying no continuation token stops the walk
only when the token sent to fetch it was itself absent (in particular on
the first page); a later token-less page instead resets the token and the
walk keeps fetching. -/
theorem walk_log_events_no_token_first {α : Type} (pre : List (LogPage α)) (p : LogPage α)
    (rest : List (LogPage α))
    (hprog : progresses none pre = true)
    (hnone : p.nextForwardToken = none)
    (hsent : sentAfter none pre = none) :
    walk_log_events (pre ++ p :: rest) none = some (emitted pre ++ p.events) :=
  walkGo_stop_token pre p rest none 0 hprog (hsent.trans hnone.symm)

/-- C7 witness: a token-less first page stops the walk at once even though
a further page exists. -/
theorem walk_log_events_no_token_witness :
    walk_log_events (([] : List (LogPage Nat))
        ++ LogPage.mk [1, 2] (none : Option String) :: [LogPage.mk [9] (some "u")]) none
      = some [1, 2] := by
  have h := walk_log_events_no_token_first [] (LogPage.mk [1, 2] (none : Option String))
    [LogPage.mk [9] (some "u")] (by decide) (by decide) (by decide)
  exact h.trans (by decide)

/-- C8: evaluation at the failing input: the name /ssm/x passes validation
although it carries the reserved prefix ssm after its leading separator,
while /aws/x and ssm-x are rejected; the optional leading slash of the
reserved-prefix regex applies only to the aws branch of the
alternation. -/
theorem is_valid_ssm_name_reserved_gap :
    is_valid_ssm_name "/ssm/x" = some (true, "name is valid")
      ∧ (is_valid_ssm_name "/aws/x").map Prod.fst = some false
      ∧ (is_valid_ssm_name "ssm-x").map Prod.fst = some false := by decide

/-- C9 counterexample: the first diff example of the spec does not hold:
for local y with value 2 and remote y with value 9 the changed entry
records (old 9, new 2), not (9, 1). -/
theorem diff_params_spec_example_cex :
    diff_params [("x", "1"), ("y", "2")] [("x", "1"), ("y", "9")]
      ≠ { unchanged := [("x", "1")], new := [],
          changed := [("y", change.mk "9" "1")] } := by decide

/-- C9 (amended): the two diff examples with the changed entry corrected to
record the remote value 9 as old and the local value 2 as new. -/
theorem diff_params_examples :
    diff_params [("x", "1"), ("y", "2")] [("x", "1"), ("y", "9")]
        = { unchanged := [("x", "1")], new := [],
            changed := [("y", change.mk "9" "2")] }
      ∧ diff_params [("z", "5")] []
        = { unchanged := [], new := [("z", "5")], changed := [] } := by decide

/-- C10: on a name of the ARN form the validation applies the
reserved-prefix, allowed-character and fully-qualified checks to the path
part after the ARN part only, while the 1011-character and 15-level checks
read the whole string. -/
theorem is_valid_ssm_name_arn (w1 w2 dreg acct path : List Char)
    (hw1 : w1 ≠ []) (hw1a : w1.all isWordChar = true)
    (hw2 : w2 ≠ []) (hw2a : w2.all isWordChar = true)
    (hd : dreg ≠ []) (hda : dreg.all Char.isDigit = true)
    (ha : acct ≠ []) (haa : acct.all Char.isDigit = true)
    (hp : path ≠ []) (hpn : path.all (fun c => !(c == '\n')) = true) :
    ssmNameCheck (arnName w1 w2 dreg acct path)
      = (if (arnName w1 w2 dreg acct path).length > 1011 then
          some (false, "name cannot be longer than 1011 chars")
        else if (arnName w1 w2 dreg acct path).count '/' > 15 then
          some (false, "name cannot have more than 15 levels of hierachy")
        else if reservedMatch path then
          some (false, "name cannot start with \x27aws\x27 or \x27ssm\x27")
        else if !legalChars path then
          some (false, "name uses an illegal character or pattern")
        else if !(path.head? == some '/') && path.contains '/' then
          some (false, "name must be fully qualified path")
        else some (true, "name is valid")) := by
  have hpath := pathOf_arnName w1 w2 dreg acct path hw1 hw1a hw2 hw2a hd hda ha haa hp hpn
  simp only [ssmNameCheck, hpath]

/-- C10 witness: a concrete ARN-form name validates as valid: the colons of
the ARN part do not trip the character check because only the path part is
checked. -/
theorem is_valid_ssm_name_arn_witness :
    ssmNameCheck (arnName ("us".data) ("east".data) ("2".data) ("111122223333".data)
        ("/param".data))
      = some (true, "name is valid") := by
  rw [is_valid_ssm_name_arn ("us".data) ("east".data) ("2".data) ("111122223333".data)
    ("/param".data) (by decide) (by decide) (by decide) (by decide) (by decide) (by decide)
    (by decide) (by decide) (by decide) (by decide)]
  decide
